import Mathlib

/-!
Verification development for `json_navigator.py`, a terminal JSON
explorer/editor.  The Python source is shallowly embedded below: pure
helper functions become Lean functions, exceptions become `Except`
results, and the in-place document mutation of `set_by_path` becomes a
function returning the updated document (the Python parent-aliasing
update is reproduced by rebuilding the document along the path that was
read).  Python's builtin lookup failures are modelled by the
`AddrError` type whose constructors are named after the exception class
CPython raises at the corresponding spot; the specification's
`AddressError` taxonomy covers all of them (including the
`ValueError("Refusing to overwrite root object")` raised by
`set_by_path` on an empty path).
-/

/-- A step of a path: an object key (Python `str`) or an array index.
The application only ever builds non-negative indices (keys come from
`dict` iteration, indices from `enumerate`), matching the spec's
PathAddress data model, so indices are modelled as `Nat`. -/
inductive Step where
  | key (k : String)
  | idx (i : Nat)
deriving DecidableEq, Repr

/-- Classification of the exceptions the accessor primitives can raise:
`KeyError` (missing object key, or integer lookup on a string-keyed
dict), `IndexError` (array index out of range), `TypeError` (step of
the wrong kind for the value, e.g. a string key applied to a list or
indexing a non-subscriptable primitive), and the
`ValueError` raised by `set_by_path` when the path is empty.  All of
these fall under the spec's `AddressError` taxonomy (spec section 7). -/
inductive AddrError where
  | keyError
  | indexError
  | typeError
  | valueError
deriving DecidableEq, Repr

/-- JSON values.  Objects are association lists in insertion order
(Python `dict` preserves insertion order); arrays are lists.  Numbers
are modelled as integers: the claims under verification only involve
integer numerals, and floating point is outside the model. -/
inductive JSON where
  | str (s : String)
  | num (n : Int)
  | bool (b : Bool)
  | null
  | obj (fields : List (String × JSON))
  | arr (items : List JSON)

/-- `is_leaf` (source line 74): a value that is not a dict and not a list. -/
def is_leaf : JSON → Bool
  | .obj _ => false
  | .arr _ => false
  | _ => true

/-- The `isinstance(old, str)` test of `_edit_leaf` (line 491). -/
def JSON.isStr : JSON → Bool
  | .str _ => true
  | _ => false

/-- One step of `cur = cur[p]` in `get_by_path` (source line 86),
following Python subscript semantics for each runtime type:
dict lookup by string key (missing key or an integer key on a
string-keyed dict raises `KeyError`), list indexing (out of range
raises `IndexError`, a string subscript raises `TypeError`),
string indexing by code point (Python strings are subscriptable),
and `TypeError` for the remaining primitives. -/
def getStep : JSON → Step → Except AddrError JSON
  | .obj fields, .key k =>
      match fields.lookup k with
      | some v => .ok v
      | none => .error .keyError
  | .obj _, .idx _ => .error .keyError
  | .arr items, .idx i =>
      match items[i]? with
      | some v => .ok v
      | none => .error .indexError
  | .arr _, .key _ => .error .typeError
  | .str s, .idx i =>
      match s.data[i]? with
      | some c => .ok (.str (String.mk [c]))
      | none => .error .indexError
  | .str _, .key _ => .error .typeError
  | _, _ => .error .typeError

/-- `get_by_path` (source lines 83-87): fold the steps over the value;
the first raising step aborts the walk. -/
def get_by_path : JSON → List Step → Except AddrError JSON
  | v, [] => .ok v
  | v, s :: rest =>
      match getStep v s with
      | .ok v' => get_by_path v' rest
      | .error e => .error e

/-- Python `dict` assignment `d[k] = v` on an association list: an
existing binding keeps its position and gets the new value; a new key
is appended at the end (insertion order). -/
def updateOrAppend : List (String × JSON) → String → JSON → List (String × JSON)
  | [], k, v => [(k, v)]
  | (k', v') :: rest, k, v =>
      if k' = k then (k', v) :: rest else (k', v') :: updateOrAppend rest k v

/-- The assignment `parent[path[-1]] = new_value` of `set_by_path`
(source line 93), by the runtime type of the parent: dict assignment
always succeeds for a string key; list assignment requires the index to
be in range (`IndexError` otherwise); every other combination raises
`TypeError` (strings and other primitives do not support item
assignment; an integer subscript assignment on a string-keyed dict
would insert a non-string key, which cannot occur for documents parsed
from JSON and is unreachable from addresses that resolve). -/
def setStep : JSON → Step → JSON → Except AddrError JSON
  | .obj fields, .key k, new => .ok (.obj (updateOrAppend fields k new))
  | .obj _, .idx _, _ => .error .typeError
  | .arr items, .idx i, new =>
      if i < items.length then .ok (.arr (items.set i new))
      else .error .indexError
  | .arr _, .key _, _ => .error .typeError
  | _, _, _ => .error .typeError

/-- `set_by_path` (source lines 89-93): an empty path raises
`ValueError("Refusing to overwrite root object")`; otherwise the
parent `path[:-1]` is resolved exactly as `get_by_path` does and the
new value is assigned at the final step.  The Python in-place update
through the parent alias is modelled by writing the updated child back
along the (successfully read) steps, which rebuilds the same document
CPython's aliasing yields. -/
def set_by_path : JSON → List Step → JSON → Except AddrError JSON
  | _, [], _ => .error .valueError
  | d, s :: rest, new =>
      match rest with
      | [] => setStep d s new
      | _ :: _ =>
          match getStep d s with
          | .error e => .error e
          | .ok child =>
              match set_by_path child rest new with
              | .error e => .error e
              | .ok child' => setStep d s child'

/-- The document the caller observes after attempting a write: the
updated document on success, the untouched document when `set_by_path`
raises (every raising point in the Python code occurs before any
mutation, so an exception leaves the document unchanged). -/
def docAfterWrite (d : JSON) (p : List Step) (new : JSON) : JSON :=
  match set_by_path d p new with
  | .ok d' => d'
  | .error _ => d

/-! ## hexdump (source lines 95-105)

Bytes are modelled as `List Nat` (each entry `< 256`).  The helpers
below reproduce the f-string formatting: `hexStrAux`/`zeroPad` give
`f"{n:08x}"` and `f"{c:02x}"` (lowercase hex, zero padded), `padRight`
gives the `:<{width*3}` left alignment, and `asciiDot` is the
printable-or-dot rendering of line 101. -/

/-- Lowercase hexadecimal digits of `n` (`Nat.toDigits 16` uses
lowercase letters, matching Python's `x` format). -/
def hexStr (n : Nat) : String :=
  String.mk (Nat.toDigits 16 n)

/-- Zero-pad a string on the left to width `w` (Python `{:0Nx}`). -/
def zeroPad (w : Nat) (s : String) : String :=
  String.mk (List.replicate (w - s.length) '0') ++ s

/-- `f"{i:08x}"`. -/
def toHex8 (n : Nat) : String := zeroPad 8 (hexStr n)

/-- `f"{c:02x}"`. -/
def toHex2 (n : Nat) : String := zeroPad 2 (hexStr n)

/-- Space-pad a string on the right to width `w` (Python `{:<N}`). -/
def padRight (w : Nat) (s : String) : String :=
  s ++ String.mk (List.replicate (w - s.length) ' ')

/-- Line 101: `chr(c) if 32 <= c < 127 else "."`. -/
def asciiDot (c : Nat) : Char :=
  if 32 ≤ c ∧ c < 127 then Char.ofNat c else '.'

/-- One formatted dump row (line 102):
`f"{i:08x}  {hexs:<{width*3}}  {text}"` with `width = 16`. -/
def hexRowText (i : Nat) (chunk : List Nat) : String :=
  toHex8 i ++ "  " ++ padRight (16 * 3) (String.intercalate " " (chunk.map toHex2))
    ++ "  " ++ String.mk (chunk.map asciiDot)

/-- The row loop of lines 98-102: `for i in range(0, len(b), width)`
with `chunk = b[i:i+width]`, expressed by peeling 16 bytes at a time. -/
def hexdumpLoop : Nat → List Nat → List String
  | _, [] => []
  | i, b :: rest =>
      hexRowText i ((b :: rest).take 16) :: hexdumpLoop (i + 16) ((b :: rest).drop 16)
termination_by _ bs => bs.length
decreasing_by simp [List.length_drop]; omega

/-- Lines 96-104: truncate to the 8192-byte limit, format the rows, and
append the truncation marker when the truncated length equals the
limit. -/
def hexdumpLines (b : List Nat) : List String :=
  let b' := b.take 8192
  hexdumpLoop 0 b' ++ (if b'.length = 8192 then ["… (truncated)"] else [])

/-- `hexdump` (source lines 95-105) at the default `width=16`,
`limit=8192` (the only call site, line 220, uses the defaults). -/
def hexdump (b : List Nat) : String :=
  String.intercalate "\n" (hexdumpLines b)

/-! ## Base64 decoding (`base64.b64decode(s, validate=True)`, line 212)

CPython's `b64decode` with `validate=True` first checks the input
against the regular expression `[A-Za-z0-9+/]*={0,2}` (raising
`binascii.Error('Non-base64 digit found')` on failure) and then calls
`binascii.a2b_base64`, which requires the length to be a multiple of
four (raising `Error('Invalid padding')` otherwise) and decodes
four-character quanta, the last of which may carry one or two `=`
padding characters. -/

/-- The exceptions of the decode pipeline; both are `binascii.Error`s
and correspond to the spec's `DecodeError`. -/
inductive DecodeError where
  | nonBase64Digit
  | invalidPadding
deriving DecidableEq, Repr

/-- Value of a character in the standard Base64 alphabet. -/
def b64Index (c : Char) : Option Nat :=
  if 'A' ≤ c ∧ c ≤ 'Z' then some (c.toNat - 'A'.toNat)
  else if 'a' ≤ c ∧ c ≤ 'z' then some (c.toNat - 'a'.toNat + 26)
  else if '0' ≤ c ∧ c ≤ '9' then some (c.toNat - '0'.toNat + 52)
  else if c = '+' then some 62
  else if c = '/' then some 63
  else none

/-- Membership in the Base64 alphabet (padding excluded). -/
def isB64Char (c : Char) : Bool := (b64Index c).isSome

/-- Trailing part of the validation regex: at most two `=`. -/
def b64ValidTail : List Char → Bool
  | [] => true
  | [c] => c = '='
  | [c1, c2] => c1 = '=' && c2 = '='
  | _ => false

/-- `re.fullmatch(b'[A-Za-z0-9+/]*={0,2}', s)`: a run of alphabet
characters followed by at most two padding characters. -/
def b64Validate : List Char → Bool
  | [] => true
  | c :: cs => if isB64Char c then b64Validate cs else b64ValidTail (c :: cs)

/-- Decode the four-character quanta (`binascii.a2b_base64` on
validated input whose length is a multiple of four): padding may only
occur in the final quantum, one `=` yields two bytes, `==` yields one. -/
def b64Quanta : List Char → Except DecodeError (List Nat)
  | [] => .ok []
  | c0 :: c1 :: c2 :: c3 :: rest =>
      match b64Index c0, b64Index c1 with
      | some a, some b =>
          if c2 = '=' then
            if c3 = '=' ∧ rest = [] then .ok [a * 4 + b / 16]
            else .error .invalidPadding
          else
            match b64Index c2 with
            | none => .error .nonBase64Digit
            | some x =>
                if c3 = '=' then
                  if rest = [] then .ok [a * 4 + b / 16, (b % 16) * 16 + x / 4]
                  else .error .invalidPadding
                else
                  match b64Index c3 with
                  | none => .error .nonBase64Digit
                  | some y =>
                      match b64Quanta rest with
                      | .ok bytes =>
                          .ok ([a * 4 + b / 16, (b % 16) * 16 + x / 4,
                                (x % 4) * 64 + y] ++ bytes)
                      | .error e => .error e
      | _, _ => .error .nonBase64Digit
  | _ => .error .invalidPadding

/-- `base64.b64decode(s, validate=True)`. -/
def b64decode (s : String) : Except DecodeError (List Nat) :=
  if b64Validate s.data then
    if s.data.length % 4 = 0 then b64Quanta s.data
    else .error .invalidPadding
  else .error .nonBase64Digit

/-! ## Text decodings (`raw.decode("utf-8")`, `raw.decode("latin-1")`) -/

/-- A UTF-8 continuation byte. -/
def isCont (c : Nat) : Bool := 0x80 ≤ c ∧ c < 0xC0

/-- Strict UTF-8 decoding of a byte list, as Python's
`bytes.decode("utf-8")`: rejects truncated sequences, stray
continuation bytes, overlong encodings, surrogates and code points
above `0x10FFFF`.  Returns `none` where Python raises
`UnicodeDecodeError`. -/
def utf8DecodeAux : List Nat → Option (List Char)
  | [] => some []
  | b :: rest =>
      if b < 0x80 then
        (utf8DecodeAux rest).map (Char.ofNat b :: ·)
      else if 0xC2 ≤ b ∧ b ≤ 0xDF then
        match rest with
        | c1 :: rest' =>
            if isCont c1 then
              (utf8DecodeAux rest').map (Char.ofNat ((b - 0xC0) * 0x40 + (c1 - 0x80)) :: ·)
            else none
        | _ => none
      else if b = 0xE0 then
        match rest with
        | c1 :: c2 :: rest' =>
            if (0xA0 ≤ c1 ∧ c1 ≤ 0xBF) ∧ isCont c2 then
              (utf8DecodeAux rest').map
                (Char.ofNat ((c1 - 0x80) * 0x40 + (c2 - 0x80)) :: ·)
            else none
        | _ => none
      else if 0xE1 ≤ b ∧ b ≤ 0xEC ∨ b = 0xEE ∨ b = 0xEF then
        match rest with
        | c1 :: c2 :: rest' =>
            if isCont c1 ∧ isCont c2 then
              (utf8DecodeAux rest').map
                (Char.ofNat ((b - 0xE0) * 0x1000 + (c1 - 0x80) * 0x40 + (c2 - 0x80)) :: ·)
            else none
        | _ => none
      else if b = 0xED then
        match rest with
        | c1 :: c2 :: rest' =>
            if (0x80 ≤ c1 ∧ c1 ≤ 0x9F) ∧ isCont c2 then
              (utf8DecodeAux rest').map
                (Char.ofNat (0xD000 + (c1 - 0x80) * 0x40 + (c2 - 0x80)) :: ·)
            else none
        | _ => none
      else if b = 0xF0 then
        match rest with
        | c1 :: c2 :: c3 :: rest' =>
            if (0x90 ≤ c1 ∧ c1 ≤ 0xBF) ∧ isCont c2 ∧ isCont c3 then
              (utf8DecodeAux rest').map
                (Char.ofNat ((c1 - 0x80) * 0x1000 + (c2 - 0x80) * 0x40 + (c3 - 0x80)) :: ·)
            else none
        | _ => none
      else if 0xF1 ≤ b ∧ b ≤ 0xF3 then
        match rest with
        | c1 :: c2 :: c3 :: rest' =>
            if isCont c1 ∧ isCont c2 ∧ isCont c3 then
              (utf8DecodeAux rest').map
                (Char.ofNat ((b - 0xF0) * 0x40000 + (c1 - 0x80) * 0x1000
                  + (c2 - 0x80) * 0x40 + (c3 - 0x80)) :: ·)
            else none
        | _ => none
      else if b = 0xF4 then
        match rest with
        | c1 :: c2 :: c3 :: rest' =>
            if (0x80 ≤ c1 ∧ c1 ≤ 0x8F) ∧ isCont c2 ∧ isCont c3 then
              (utf8DecodeAux rest').map
                (Char.ofNat (0x100000 + (c1 - 0x80) * 0x1000
                  + (c2 - 0x80) * 0x40 + (c3 - 0x80)) :: ·)
            else none
        | _ => none
      else none

/-- `raw.decode("utf-8")` (line 214): `some text` on success, `none`
where Python raises `UnicodeDecodeError`. -/
def utf8Decode (bytes : List Nat) : Option String :=
  (utf8DecodeAux bytes).map String.mk

/-- `raw.decode("latin-1", errors="ignore")` (line 221): Latin-1 maps
every byte to the code point of the same value and never fails (the
`errors="ignore"` flag is therefore inert). -/
def latin1Decode (bytes : List Nat) : String :=
  String.mk (bytes.map Char.ofNat)

/-! ## `json.loads` (used at lines 417, 487, 495)

A recursive-descent parser for the strict JSON grammar accepted by
Python's `json.loads`: the four JSON whitespace characters, objects,
arrays, strings with the standard escapes, the literals
`true`/`false`/`null`, and numbers.  Numbers are restricted to the
integer part of the grammar (a fraction or exponent is rejected) since
the model's numbers are integers; floating point is outside the model.
Duplicate object keys follow `dict` semantics (last value wins, first
position kept), reproduced with `updateOrAppend`.  The mutually
recursive productions are driven by a fuel counter; one unit of fuel is
spent per production call and every call chain also consumes input, so
`length + 1` units suffice for any parseable input. -/

/-- The single parse-failure value (Python's `json.JSONDecodeError`,
whose payload the application never inspects). -/
inductive ParseErr where
  | err
deriving DecidableEq, Repr

/-- JSON whitespace: space, tab, line feed, carriage return (the only
characters `json.loads` skips). -/
def jsonWs (c : Char) : Bool :=
  c = ' ' ∨ c = '\t' ∨ c = '\n' ∨ c = '\r'

/-- Skip JSON whitespace. -/
def skipWs (cs : List Char) : List Char :=
  cs.dropWhile jsonWs

/-- Value of a hexadecimal digit in a `\uXXXX` escape. -/
def hexVal (c : Char) : Option Nat :=
  if '0' ≤ c ∧ c ≤ '9' then some (c.toNat - '0'.toNat)
  else if 'a' ≤ c ∧ c ≤ 'f' then some (c.toNat - 'a'.toNat + 10)
  else if 'A' ≤ c ∧ c ≤ 'F' then some (c.toNat - 'A'.toNat + 10)
  else none

/-- Body of a JSON string after the opening quote: plain characters
(control characters below `0x20` are rejected, as in strict mode),
the simple escapes, and `\uXXXX`.  Returns the decoded characters and
the input after the closing quote. -/
def parseStringChars : List Char → Except ParseErr (List Char × List Char)
  | [] => .error .err
  | '"' :: rest => .ok ([], rest)
  | '\\' :: e :: rest =>
      match e with
      | '"' => (parseStringChars rest).map (fun (s, r) => ('"' :: s, r))
      | '\\' => (parseStringChars rest).map (fun (s, r) => ('\\' :: s, r))
      | '/' => (parseStringChars rest).map (fun (s, r) => ('/' :: s, r))
      | 'b' => (parseStringChars rest).map (fun (s, r) => (Char.ofNat 8 :: s, r))
      | 'f' => (parseStringChars rest).map (fun (s, r) => (Char.ofNat 12 :: s, r))
      | 'n' => (parseStringChars rest).map (fun (s, r) => ('\n' :: s, r))
      | 'r' => (parseStringChars rest).map (fun (s, r) => ('\r' :: s, r))
      | 't' => (parseStringChars rest).map (fun (s, r) => ('\t' :: s, r))
      | 'u' =>
          match rest with
          | h1 :: h2 :: h3 :: h4 :: rest' =>
              match hexVal h1, hexVal h2, hexVal h3, hexVal h4 with
              | some a, some b, some c, some d =>
                  (parseStringChars rest').map
                    (fun (s, r) => (Char.ofNat (a * 4096 + b * 256 + c * 16 + d) :: s, r))
              | _, _, _, _ => .error .err
          | _ => .error .err
      | _ => .error .err
  | c :: rest =>
      if c.toNat < 32 then .error .err
      else (parseStringChars rest).map (fun (s, r) => (c :: s, r))

/-- Digits to a natural number. -/
def digitsToNat (ds : List Char) : Nat :=
  ds.foldl (fun a c => a * 10 + (c.toNat - '0'.toNat)) 0

/-- The number production: optional minus sign, then `0` or a nonzero
digit followed by digits (a leading zero before further digits is
rejected, as in the JSON grammar).  A following `.`/`e`/`E` would start
a fraction or exponent, i.e. a float literal, which is outside the
integer model and rejected. -/
def parseNumber (cs : List Char) : Except ParseErr (JSON × List Char) :=
  let (neg, cs1) := match cs with
    | '-' :: r => (true, r)
    | _ => (false, cs)
  match cs1.span (·.isDigit) with
  | ([], _) => .error .err
  | (ds, rest) =>
      if 1 < ds.length ∧ ds.headD '0' = '0' then .error .err
      else
        match rest with
        | '.' :: _ => .error .err
        | 'e' :: _ => .error .err
        | 'E' :: _ => .error .err
        | _ =>
            let n : Int := Int.ofNat (digitsToNat ds)
            .ok (.num (if neg then -n else n), rest)

mutual

/-- The value production: skip whitespace, then dispatch on the first
character (object, array, string, literal, or number). -/
def parseValue : Nat → List Char → Except ParseErr (JSON × List Char)
  | 0, _ => .error .err
  | fuel + 1, cs =>
      match skipWs cs with
      | [] => .error .err
      | '\x7b' :: rest =>
          (match skipWs rest with
           | '\x7d' :: rest' => .ok (.obj [], rest')
           | rest' => parseMembers fuel rest' [])
      | '[' :: rest =>
          (match skipWs rest with
           | ']' :: rest' => .ok (.arr [], rest')
           | rest' => parseItems fuel rest' [])
      | '"' :: rest =>
          (match parseStringChars rest with
           | .ok (chars, rest') => .ok (.str (String.mk chars), rest')
           | .error e => .error e)
      | 't' :: 'r' :: 'u' :: 'e' :: rest => .ok (.bool true, rest)
      | 'f' :: 'a' :: 'l' :: 's' :: 'e' :: rest => .ok (.bool false, rest)
      | 'n' :: 'u' :: 'l' :: 'l' :: rest => .ok (.null, rest)
      | rest => parseNumber rest

/-- The object-members production (after `{` and when the object is not
empty): a quoted key, `:`, a value, then `,` and more members or the
closing `}`.  Members accumulate with `dict` assignment semantics. -/
def parseMembers : Nat → List Char → List (String × JSON) →
    Except ParseErr (JSON × List Char)
  | 0, _, _ => .error .err
  | fuel + 1, cs, acc =>
      match cs with
      | '"' :: rest =>
          (match parseStringChars rest with
           | .error e => .error e
           | .ok (keyChars, rest1) =>
               match skipWs rest1 with
               | ':' :: rest2 =>
                   (match parseValue fuel rest2 with
                    | .error e => .error e
                    | .ok (v, rest3) =>
                        let acc' := updateOrAppend acc (String.mk keyChars) v
                        match skipWs rest3 with
                        | ',' :: rest4 => parseMembers fuel (skipWs rest4) acc'
                        | '\x7d' :: rest4 => .ok (.obj acc', rest4)
                        | _ => .error .err)
               | _ => .error .err)
      | _ => .error .err

/-- The array-items production (after `[` and when the array is not
empty): a value, then `,` and more items or the closing `]`. -/
def parseItems : Nat → List Char → List JSON →
    Except ParseErr (JSON × List Char)
  | 0, _, _ => .error .err
  | fuel + 1, cs, acc =>
      match parseValue fuel cs with
      | .error e => .error e
      | .ok (v, rest) =>
          match skipWs rest with
          | ',' :: rest' => parseItems fuel rest' (acc ++ [v])
          | ']' :: rest' => .ok (.arr (acc ++ [v]), rest')
          | _ => .error .err

end

/-- `json.loads` on a string: parse one value and require the rest of
the input to be whitespace. -/
def json_loads (s : String) : Except ParseErr JSON :=
  match parseValue (s.length + 1) s.data with
  | .error e => .error e
  | .ok (v, rest) =>
      if (skipWs rest).isEmpty then .ok v else .error .err

/-! ## Base64 leaf operation (`Base64DecodeScreen.on_mount`, lines
209-226, and `JSONTreeApp._b64_leaf.handle_base64`, lines 409-427) -/

/-- The `Base64Result` dataclass (lines 180-184). -/
structure Base64Result where
  decoded_text : Option String
  decoded_bytes_preview : Option String
  replacement_value : Option String

/-- `Base64DecodeScreen.on_mount` (lines 209-226) as a pure function of
the source string: strict Base64 decode; on success either the UTF-8
text (which is also the replacement candidate) or, for non-UTF-8 bytes,
a hexdump preview with the Latin-1 permissive decode as replacement.
On decode failure `self._result` stays `None` and the replace button is
hidden, so no result can be dismissed: modelled as `none`. -/
def on_mount_result (src : String) : Option Base64Result :=
  match b64decode src with
  | .error _ => none
  | .ok raw =>
      match utf8Decode raw with
      | some text => some ⟨some text, none, some text⟩
      | none => some ⟨none, some (hexdump raw), some (latin1Decode raw)⟩

/-- Python `str.lstrip()` (line 414), on the character list.  Python
strips Unicode whitespace; the model strips the ASCII whitespace
recognised by `Char.isWhitespace`, which agrees on every character the
claims involve. -/
def lstrip (s : String) : List Char := s.data.dropWhile Char.isWhitespace

/-- Python `str.startswith` with a single-character test string, as in
`stripped.startswith("\x7b")`. -/
def startsWithChar (cs : List Char) (c : Char) : Bool :=
  match cs with
  | [] => false
  | x :: _ => x = c

/-- The replacement value `handle_base64` would write on acceptance
(lines 410-421): the replacement string from the screen, structurally
promoted when the decoded text exists, starts (after `lstrip`) with
`{` or `[`, and parses as JSON; a parse failure keeps the plain
replacement (`parsed = None` leaves `replacement` untouched). -/
def proposedReplacement (src : String) : Option JSON :=
  match on_mount_result src with
  | none => none
  | some result =>
      match result.replacement_value with
      | none => none
      | some repl =>
          some (match result.decoded_text with
            | none => .str repl
            | some text =>
                if startsWithChar (lstrip text) '\x7b' || startsWithChar (lstrip text) '[' then
                  match json_loads text with
                  | .ok parsed => parsed
                  | .error _ => .str repl
                else .str repl)

/-- The document-level effect of opening the Base64 screen on the leaf
at `path` and accepting the proposed replacement (`_b64_leaf`, lines
401-429): a non-string leaf only shows a message; a failed decode
dismisses with no result; a failing `set_by_path` is caught and
reported with the document untouched (the `get_by_path` at line 403 is
outside any handler, so its failure propagates as the `Except`).
Tree refresh (line 427) does not touch the document, so it has no
document-level effect. -/
def b64_accept (d : JSON) (path : List Step) : Except AddrError JSON :=
  match get_by_path d path with
  | .error e => .error e
  | .ok val =>
      match val with
      | .str s =>
          match proposedReplacement s with
          | none => .ok d
          | some repl =>
              match set_by_path d path repl with
              | .ok d' => .ok d'
              | .error _ => .ok d
      | _ => .ok d

/-! ## Edit leaf operation (`JSONTreeApp._edit_leaf`, lines 484-501) -/

/-- Lines 491-497: the replacement computed from the edited text.  A
string-typed leaf takes the edited text verbatim (no parse); any other
leaf parses the edited text as JSON and falls back to the raw text as a
string on `JSONDecodeError`. -/
def editReplacement (old : JSON) (edited : String) : JSON :=
  match old with
  | .str _ => .str edited
  | _ =>
      match json_loads edited with
      | .ok v => v
      | .error _ => .str edited

/-! ## Lazy tree model (`NodeMeta`, `_populate_children`,
`_find_node_by_path`) -/

/-- The `kind` field of `NodeMeta` (line 283): `'dict' | 'list' |
'leaf'`. -/
inductive Kind where
  | dict
  | list
  | leaf
deriving DecidableEq, Repr

/-- A tree node: the Textual `Tree.Node` together with its `NodeMeta`
payload (`path`, `kind`, `loaded`) and `allow_expand` flag. -/
structure TreeNode where
  label : String
  path : List Step
  kind : Kind
  loaded : Bool
  allowExpand : Bool
  children : List TreeNode

/-- Python string comparison (`<`): lexicographic on code points, the
order `sorted` uses for the string keys. -/
def strLt : List Char → List Char → Bool
  | [], [] => false
  | [], _ :: _ => true
  | _ :: _, [] => false
  | a :: as, b :: bs =>
      if a.toNat < b.toNat then true
      else if b.toNat < a.toNat then false
      else strLt as bs

/-- Non-strict key order derived from `strLt`. -/
def strLe (a b : String) : Bool := !(strLt b.data a.data)

/-- Insert a key into a sorted key list. -/
def insertKey (k : String) : List String → List String
  | [] => [k]
  | x :: xs => if strLt k.data x.data then k :: x :: xs else x :: insertKey k xs

/-- `sorted(value.keys(), key=str)` (line 336): the keys are strings,
so `key=str` is the identity and the sort is plain code-point order
(insertion sort is stable, like Python's sort). -/
def sortKeys (ks : List String) : List String := ks.foldr insertKey []

/-- The child nodes `_populate_children` derives from a value (lines
335-357): for a dict, one child per key in sorted order (leaf children
get a `k: (...)` label, are born loaded and non-expandable; branch
children get a `k:` label, are unloaded and expandable); for a list,
the same indexed by position; a primitive produces no children.
For a dict the loop reads `v = value[k]`, i.e. the binding of `k`. -/
def deriveChildren (value : JSON) (path : List Step) : List TreeNode :=
  match value with
  | .obj fields =>
      (sortKeys (fields.map Prod.fst)).map fun k =>
        let v := (fields.lookup k).getD .null
        if is_leaf v then
          ⟨s!"{k}: (...)", path ++ [.key k], .leaf, true, false, []⟩
        else
          ⟨s!"{k}:", path ++ [.key k],
            (match v with | .obj _ => .dict | _ => .list), false, true, []⟩
  | .arr items =>
      (items.enum.map fun (i, v) =>
        if is_leaf v then
          ⟨s!"[{i}]: (...)", path ++ [.idx i], .leaf, true, false, []⟩
        else
          ⟨s!"[{i}]:", path ++ [.idx i],
            (match v with | .obj _ => .dict | _ => .list), false, true, []⟩)
  | _ => []

/-- `_populate_children` (lines 331-358): read the value at the node's
path (line 333 — the `if meta.path` guard is equivalent to
`get_by_path` on the empty path, which returns the root), discard the
previous children, attach the derived children, and mark the node
loaded.  A failing `get_by_path` would propagate out of the handler
before any change, hence the `Except`. -/
def populateChildren (data : JSON) (n : TreeNode) : Except AddrError TreeNode :=
  match get_by_path data n.path with
  | .error e => .error e
  | .ok value => .ok { n with children := deriveChildren value n.path, loaded := true }

mutual

/-- `_find_node_by_path` (lines 431-440): depth-first search for the
node whose meta path equals the given path. -/
def findNodeByPath : TreeNode → List Step → Option TreeNode
  | ⟨label, path, kind, loaded, ae, children⟩, p =>
      if path = p then some ⟨label, path, kind, loaded, ae, children⟩
      else findNodeInList children p

/-- Search a list of sibling subtrees. -/
def findNodeInList : List TreeNode → List Step → Option TreeNode
  | [], _ => none
  | c :: rest, p =>
      match findNodeByPath c p with
      | some r => some r
      | none => findNodeInList rest p

end

/-- The application state the claims observe: the in-memory document
(`self.data`) and the tree. -/
structure AppState where
  data : JSON
  tree : TreeNode

/-- `_edit_leaf` (lines 484-501) after the editor returned `edited`
(a `None`/cancelled editor simply leaves the state alone and is not
modelled): read the old value, compute the replacement (lines
491-497), and write it with `set_by_path`; a failing write is caught
and reported with the state untouched.  The function ends at line 501:
unlike the Base64 path (line 427), it never calls
`_refresh_tree_after_value_change`, so the tree is returned as it was.
The failure of the unguarded `get_by_path` at line 486 propagates. -/
def edit_leaf (st : AppState) (path : List Step) (edited : String) :
    Except AddrError AppState :=
  match get_by_path st.data path with
  | .error e => .error e
  | .ok old =>
      match set_by_path st.data path (editReplacement old edited) with
      | .ok d' => .ok ⟨d', st.tree⟩
      | .error _ => .ok ⟨st.data, st.tree⟩

/-! ## Concrete scenario for the edit-then-refresh claim -/

/-- Document `{"x": 42}`. -/
def c1Doc : JSON := .obj [("x", .num 42)]

/-- The root node as `on_mount` creates it (lines 321-328): kind
`dict`, unloaded. -/
def c1Root : TreeNode := ⟨"JSON", [], .dict, false, true, []⟩

/-- The tree after the user expands the root: the leaf child `x` is
visible. -/
def c1Tree : TreeNode :=
  ⟨"JSON", [], .dict, true, true, [⟨"x: (...)", [.key "x"], .leaf, true, false, []⟩]⟩

/-- The document after the edit writes the parsed object. -/
def c1DocAfter : JSON := .obj [("x", .obj [("a", .num 1)])]

/-! # Lemmas about the accessor primitives -/

theorem set_of_getElem? {α : Type _} :
    ∀ (l : List α) (i : Nat) (v : α), l[i]? = some v → l.set i v = l
  | [], _, _, h => by simp at h
  | x :: xs, 0, v, h => by
      simp only [List.getElem?_cons_zero, Option.some.injEq] at h
      simp [List.set, h]
  | x :: xs, i + 1, v, h => by
      simp only [List.getElem?_cons_succ] at h
      simp [List.set, set_of_getElem? xs i v h]

theorem lookup_updateOrAppend_self (l : List (String × JSON)) (k : String) (v : JSON) :
    (updateOrAppend l k v).lookup k = some v := by
  induction l with
  | nil => simp [updateOrAppend, List.lookup]
  | cons hd tl ih =>
      obtain ⟨k', v'⟩ := hd
      by_cases h : k' = k
      · simp [updateOrAppend, h, List.lookup]
      · simp only [updateOrAppend, if_neg h, List.lookup]
        have : (k == k') = false := by
          simp [beq_iff_eq]; exact fun hc => h hc.symm
        simp [this, ih]

theorem lookup_updateOrAppend_ne (l : List (String × JSON)) (k k' : String) (v : JSON)
    (h : k' ≠ k) : (updateOrAppend l k v).lookup k' = l.lookup k' := by
  induction l with
  | nil =>
      simp only [updateOrAppend, List.lookup]
      have : (k' == k) = false := by simp [beq_iff_eq]; exact h
      simp [this]
  | cons hd tl ih =>
      obtain ⟨k₀, v₀⟩ := hd
      by_cases h₀ : k₀ = k
      · subst h₀
        simp only [updateOrAppend, if_pos rfl, List.lookup]
        have : (k' == k₀) = false := by simp [beq_iff_eq]; exact h
        simp [this]
      · simp only [updateOrAppend, if_neg h₀, List.lookup]
        cases hbe : (k' == k₀) <;> simp [ih]

theorem updateOrAppend_of_lookup (l : List (String × JSON)) (k : String) (v : JSON)
    (h : l.lookup k = some v) : updateOrAppend l k v = l := by
  induction l with
  | nil => simp [List.lookup] at h
  | cons hd tl ih =>
      obtain ⟨k₀, v₀⟩ := hd
      by_cases h₀ : k₀ = k
      · subst h₀
        simp only [List.lookup, beq_self_eq_true] at h
        simp [List.lookup] at h
        simp [updateOrAppend, h]
      · have hbe : (k == k₀) = false := by
          simp [beq_iff_eq]; exact fun hc => h₀ hc.symm
        simp only [List.lookup, hbe] at h
        simp [updateOrAppend, h₀, ih h]

/-- Splitting a resolve at a path concatenation. -/
theorem get_by_path_append (d : JSON) (p q : List Step) :
    get_by_path d (p ++ q) =
      match get_by_path d p with
      | .ok v => get_by_path v q
      | .error e => .error e := by
  induction p generalizing d with
  | nil => simp [get_by_path]
  | cons s rest ih =>
      simp only [List.cons_append, get_by_path]
      cases getStep d s with
      | ok v => exact ih v
      | error e => rfl

/-- Writing back the value just read is either the identity or an
error (the error arises exactly when the read went through a string,
which is subscriptable but rejects item assignment). -/
theorem setStep_roundtrip (d c : JSON) (s : Step) (h : getStep d s = .ok c) :
    setStep d s c = .ok d ∨ ∃ e, setStep d s c = .error e := by
  cases d with
  | obj fields =>
      cases s with
      | key k =>
          simp only [getStep] at h
          cases hl : fields.lookup k with
          | none => simp [hl] at h
          | some v =>
              simp [hl] at h
              subst h
              left
              simp [setStep, updateOrAppend_of_lookup fields k v hl]
      | idx i => simp [getStep] at h
  | arr items =>
      cases s with
      | key k => simp [getStep] at h
      | idx i =>
          simp only [getStep] at h
          cases hg : items[i]? with
          | none => simp [hg] at h
          | some v =>
              simp [hg] at h
              subst h
              left
              have hlen : i < items.length := by
                by_contra hge
                rw [List.getElem?_eq_none (Nat.le_of_not_lt hge)] at hg
                exact Option.noConfusion hg
              simp [setStep, if_pos hlen, set_of_getElem? items i v hg]
  | str s' =>
      cases s with
      | key k => simp [getStep] at h
      | idx i => right; exact ⟨.typeError, rfl⟩
  | num n => simp [getStep] at h
  | bool b => simp [getStep] at h
  | null => simp [getStep] at h

/-- A successful write at step `s` does not disturb reads at a
different step `t`. -/
theorem getStep_setStep_ne (d d' w : JSON) (s t : Step) (hw : setStep d s w = .ok d')
    (hne : t ≠ s) : getStep d' t = getStep d t := by
  cases d with
  | obj fields =>
      cases s with
      | key k =>
          simp only [setStep, Except.ok.injEq] at hw
          subst hw
          cases t with
          | key k' =>
              have hk : k' ≠ k := fun hc => hne (by rw [hc])
              simp [getStep, lookup_updateOrAppend_ne fields k k' w hk]
          | idx i => simp [getStep]
      | idx i => simp [setStep] at hw
  | arr items =>
      cases s with
      | key k => simp [setStep] at hw
      | idx i =>
          simp only [setStep] at hw
          by_cases hlen : i < items.length
          · simp only [if_pos hlen, Except.ok.injEq] at hw
            subst hw
            cases t with
            | key k' => simp [getStep]
            | idx j =>
                have hij : i ≠ j := fun hc => hne (by rw [hc])
                simp [getStep, List.getElem?_set_ne hij]
          · simp [if_neg hlen] at hw
  | str s' => simp [setStep] at hw
  | num n => simp [setStep] at hw
  | bool b => simp [setStep] at hw
  | null => simp [setStep] at hw

/-- Reading back the step just written yields the written value,
provided the original read at that step succeeded. -/
theorem getStep_setStep_eq (d d' c w : JSON) (s : Step) (hr : getStep d s = .ok c)
    (hw : setStep d s w = .ok d') : getStep d' s = .ok w := by
  cases d with
  | obj fields =>
      cases s with
      | key k =>
          simp only [setStep, Except.ok.injEq] at hw
          subst hw
          simp [getStep, lookup_updateOrAppend_self fields k w]
      | idx i => simp [getStep] at hr
  | arr items =>
      cases s with
      | key k => simp [getStep] at hr
      | idx i =>
          simp only [setStep] at hw
          by_cases hlen : i < items.length
          · simp only [if_pos hlen, Except.ok.injEq] at hw
            subst hw
            simp [getStep, List.getElem?_set_eq_of_lt w hlen]
          · simp [if_neg hlen] at hw
  | str s' =>
      cases s with
      | key k => simp [getStep] at hr
      | idx i => simp [setStep] at hw
  | num n => simp [getStep] at hr
  | bool b => simp [getStep] at hr
  | null => simp [getStep] at hr

/-- One-step unfolding of `set_by_path` at a singleton path. -/
theorem set_by_path_single (d : JSON) (s : Step) (v : JSON) :
    set_by_path d [s] v = setStep d s v := rfl

/-- One-step unfolding of `set_by_path` at a path of length at least
two. -/
theorem set_by_path_cons_cons (d : JSON) (s r : Step) (rs : List Step) (v : JSON) :
    set_by_path d (s :: r :: rs) v =
      match getStep d s with
      | .error e => .error e
      | .ok child =>
          match set_by_path child (r :: rs) v with
          | .error e => .error e
          | .ok child' => setStep d s child' := rfl

/-- Writing back the resolved value along the full path is the identity
on success, and any failure is an exception raised before mutation. -/
theorem set_by_path_roundtrip :
    ∀ (p : List Step) (d v : JSON), get_by_path d p = .ok v →
      set_by_path d p v = .ok d ∨ ∃ e, set_by_path d p v = .error e := by
  intro p
  induction p with
  | nil => intro d v _; right; exact ⟨.valueError, rfl⟩
  | cons s rest ih =>
      intro d v hget
      simp only [get_by_path] at hget
      cases hstep : getStep d s with
      | error e => rw [hstep] at hget; exact Except.noConfusion hget
      | ok c =>
          rw [hstep] at hget
          cases rest with
          | nil =>
              simp only [get_by_path, Except.ok.injEq] at hget
              subst hget
              rw [set_by_path_single]
              exact setStep_roundtrip d c s hstep
          | cons r rs =>
              rcases ih c v hget with hok | ⟨e, herr⟩
              · simp only [set_by_path_cons_cons, hstep, hok]
                exact setStep_roundtrip d c s hstep
              · simp only [set_by_path_cons_cons, hstep, herr]
                exact Or.inr ⟨e, rfl⟩

/-- Frame property of a successful write: addresses that are
incomparable with the written path (neither is a prefix of the other)
resolve to the same value afterwards. -/
theorem set_by_path_frame :
    ∀ (p : List Step) (d d' v : JSON) (q : List Step),
      set_by_path d p v = .ok d' → ¬(p <+: q) → ¬(q <+: p) →
      get_by_path d' q = get_by_path d q := by
  intro p
  induction p with
  | nil => intro d d' v q hw _ _; exact Except.noConfusion hw
  | cons s rest ih =>
      intro d d' v q hw hpq hqp
      cases q with
      | nil => exact absurd (List.nil_prefix) hqp
      | cons t q' =>
          by_cases hts : t = s
          · subst hts
            cases rest with
            | nil =>
                exfalso
                exact hpq (List.cons_prefix_cons.mpr ⟨rfl, List.nil_prefix⟩)
            | cons r rs =>
                cases hstep : getStep d t with
                | error e =>
                    simp only [set_by_path_cons_cons, hstep] at hw
                    exact Except.noConfusion hw
                | ok child =>
                    cases hinner : set_by_path child (r :: rs) v with
                    | error e =>
                        simp only [set_by_path_cons_cons, hstep, hinner] at hw
                        exact Except.noConfusion hw
                    | ok child' =>
                        simp only [set_by_path_cons_cons, hstep, hinner] at hw
                        have hread : getStep d' t = .ok child' :=
                          getStep_setStep_eq d d' child child' t hstep hw
                        have hpq' : ¬((r :: rs) <+: q') := fun hc =>
                          hpq (List.cons_prefix_cons.mpr ⟨rfl, hc⟩)
                        have hqp' : ¬(q' <+: (r :: rs)) := fun hc =>
                          hqp (List.cons_prefix_cons.mpr ⟨rfl, hc⟩)
                        simp only [get_by_path, hread, hstep]
                        exact ih child child' v q' hinner hpq' hqp'
          · have hw' : ∃ c', setStep d s c' = .ok d' := by
              cases rest with
              | nil => exact ⟨v, by rw [set_by_path_single] at hw; exact hw⟩
              | cons r rs =>
                  cases hstep : getStep d s with
                  | error e =>
                      simp only [set_by_path_cons_cons, hstep] at hw
                      exact Except.noConfusion hw
                  | ok child =>
                      cases hinner : set_by_path child (r :: rs) v with
                      | error e =>
                          simp only [set_by_path_cons_cons, hstep, hinner] at hw
                          exact Except.noConfusion hw
                      | ok child' =>
                          simp only [set_by_path_cons_cons, hstep, hinner] at hw
                          exact ⟨child', hw⟩
            obtain ⟨c', hc'⟩ := hw'
            have hread : getStep d' t = getStep d t :=
              getStep_setStep_ne d d' c' s t hc' hts
            simp only [get_by_path, hread]

/-! # Lemmas about hexdump -/

theorem hexdumpLoop_nil (i : Nat) : hexdumpLoop i [] = [] := by
  simp [hexdumpLoop]

theorem hexdumpLoop_cons (i b : Nat) (rest : List Nat) :
    hexdumpLoop i (b :: rest) =
      hexRowText i ((b :: rest).take 16) :: hexdumpLoop (i + 16) ((b :: rest).drop 16) := by
  rw [hexdumpLoop]

/-- Closed form of the row loop: one row per 16-byte chunk, the `j`-th
row formatted at offset `i + 16 * j` from the `j`-th chunk. -/
theorem hexdumpLoop_closed :
    ∀ (m : Nat) (bs : List Nat) (i : Nat), bs.length ≤ m →
      hexdumpLoop i bs = (List.range ((bs.length + 15) / 16)).map
        (fun j => hexRowText (i + 16 * j) ((bs.drop (16 * j)).take 16)) := by
  intro m
  induction m with
  | zero =>
      intro bs i h
      have : bs = [] := List.length_eq_zero.mp (Nat.le_zero.mp h)
      subst this
      simp [hexdumpLoop_nil]
  | succ m ih =>
      intro bs i h
      cases bs with
      | nil => simp [hexdumpLoop_nil]
      | cons b rest =>
          rw [hexdumpLoop_cons]
          have hlen : ((b :: rest).drop 16).length ≤ m := by
            simp only [List.length_drop, List.length_cons]
            simp only [List.length_cons] at h
            omega
          rw [ih _ (i + 16) hlen]
          have hN : ((b :: rest).length + 15) / 16
              = (((b :: rest).drop 16).length + 15) / 16 + 1 := by
            simp only [List.length_drop, List.length_cons]
            omega
          rw [hN, List.range_succ_eq_map, List.map_cons, List.map_map]
          refine congrArg₂ List.cons ?_ ?_
          · norm_num
          · refine List.map_congr_left fun j _ => ?_
            simp only [Function.comp_apply, Nat.succ_eq_add_one]
            have h1 : i + 16 + 16 * j = i + 16 * (j + 1) := by ring
            have h2 : 16 + 16 * j = 16 * (j + 1) := by ring
            rw [List.drop_drop, h1, h2]

theorem hexdumpLoop_eq (bs : List Nat) (i : Nat) :
    hexdumpLoop i bs = (List.range ((bs.length + 15) / 16)).map
      (fun j => hexRowText (i + 16 * j) ((bs.drop (16 * j)).take 16)) :=
  hexdumpLoop_closed bs.length bs i le_rfl

/-- Every formatted row is at least 60 characters long (8 offset
digits, two separators of 2 spaces, 48 columns of hex). -/
theorem hexRowText_length_ge (i : Nat) (chunk : List Nat) :
    60 ≤ (hexRowText i chunk).length := by
  have hz : ∀ (w : Nat) (s : String), w ≤ (zeroPad w s).length := by
    intro w s
    simp only [zeroPad, String.length_append]
    simp
    omega
  have hp : ∀ (w : Nat) (s : String), w ≤ (padRight w s).length := by
    intro w s
    simp only [padRight, String.length_append]
    simp
    omega
  have h8 := hz 8 (hexStr i)
  have h48 := hp (16 * 3) (String.intercalate " " (chunk.map toHex2))
  have hc : ("  " : String).length = 2 := rfl
  simp only [hexRowText, toHex8, String.length_append, hc]
  norm_num at h48 ⊢
  omega

/-- The truncation marker (13 characters) is never one of the
formatted rows. -/
theorem marker_not_mem_hexdumpLoop (i : Nat) (bs : List Nat) :
    "… (truncated)" ∉ hexdumpLoop i bs := by
  intro hmem
  rw [hexdumpLoop_eq] at hmem
  obtain ⟨j, _, hj⟩ := List.mem_map.mp hmem
  have h60 := hexRowText_length_ge (i + 16 * j) ((bs.drop (16 * j)).take 16)
  rw [hj] at h60
  have : ("… (truncated)" : String).length = 13 := by decide
  omega

/-! # Lemmas about Base64 validation -/

/-- A validated input contains only alphabet characters and `=`. -/
theorem b64Validate_chars :
    ∀ (cs : List Char), b64Validate cs = true →
      ∀ c ∈ cs, isB64Char c = true ∨ c = '=' := by
  intro cs
  induction cs with
  | nil => intro _ c hc; exact absurd hc (List.not_mem_nil c)
  | cons x xs ih =>
      intro h c hc
      by_cases hx : isB64Char x
      · simp only [b64Validate, if_pos hx] at h
        rcases List.mem_cons.mp hc with hcx | hcs
        · subst hcx; exact Or.inl hx
        · exact ih h c hcs
      · simp only [b64Validate, if_neg hx] at h
        cases xs with
        | nil =>
            simp only [b64ValidTail, decide_eq_true_eq] at h
            rcases List.mem_cons.mp hc with hcx | hcs
            · subst hcx; exact Or.inr h
            · exact absurd hcs (List.not_mem_nil c)
        | cons y ys =>
            cases ys with
            | nil =>
                simp only [b64ValidTail, Bool.and_eq_true, decide_eq_true_eq] at h
                rcases List.mem_cons.mp hc with hcx | hcs
                · subst hcx; exact Or.inr h.1
                · rcases List.mem_cons.mp hcs with hcy | hcn
                  · subst hcy; exact Or.inr h.2
                  · exact absurd hcn (List.not_mem_nil c)
            | cons z zs => simp [b64ValidTail] at h

/-- A character outside the alphabet (other than padding) anywhere in
the input makes strict decoding fail with the non-base64-digit error. -/
theorem b64decode_bad_char (s : String) (c : Char) (hmem : c ∈ s.data)
    (h1 : isB64Char c = false) (h2 : c ≠ '=') :
    b64decode s = .error .nonBase64Digit := by
  have hv : b64Validate s.data = false := by
    cases hvv : b64Validate s.data with
    | false => rfl
    | true =>
        rcases b64Validate_chars s.data hvv c hmem with hb | hb
        · rw [h1] at hb; exact Bool.noConfusion hb
        · exact absurd hb h2
  simp [b64decode, hv]

/-! # Lemmas about the key sort -/

/-- The non-strict order underlying the sorted-children statement. -/
def keyLe (a b : String) : Prop := strLt b.data a.data = false

theorem strLt_asymm :
    ∀ (a b : List Char), strLt a b = true → strLt b a = false := by
  intro a
  induction a with
  | nil =>
      intro b h
      cases b with
      | nil => simp [strLt] at h
      | cons y ys => simp [strLt]
  | cons x xs ih =>
      intro b h
      cases b with
      | nil => simp [strLt] at h
      | cons y ys =>
          simp only [strLt] at h ⊢
          by_cases h1 : x.toNat < y.toNat
          · have h2 : ¬ y.toNat < x.toNat := by omega
            simp [h1, h2]
          · by_cases h2 : y.toNat < x.toNat
            · simp [h1, h2] at h
            · simp only [if_neg h1, if_neg h2] at h
              simp only [if_neg h2, if_neg h1]
              exact ih ys h

theorem strLt_trans :
    ∀ (a b c : List Char), strLt a b = true → strLt b c = true →
      strLt a c = true := by
  intro a
  induction a with
  | nil =>
      intro b c hab hbc
      cases b with
      | nil => simp [strLt] at hab
      | cons y ys =>
          cases c with
          | nil => simp [strLt] at hbc
          | cons z zs => simp [strLt]
  | cons x xs ih =>
      intro b c hab hbc
      cases b with
      | nil => simp [strLt] at hab
      | cons y ys =>
          cases c with
          | nil => simp [strLt] at hbc
          | cons z zs =>
              simp only [strLt] at hab hbc ⊢
              by_cases hxy : x.toNat < y.toNat
              · by_cases hyz : y.toNat < z.toNat
                · have : x.toNat < z.toNat := by omega
                  simp [this]
                · by_cases hzy : z.toNat < y.toNat
                  · simp [hyz, hzy] at hbc
                  · have : x.toNat < z.toNat := by omega
                    simp [this]
              · by_cases hyx : y.toNat < x.toNat
                · simp [hxy, hyx] at hab
                · have hxy' : x.toNat = y.toNat := by omega
                  simp only [if_neg hxy, if_neg hyx] at hab
                  by_cases hyz : y.toNat < z.toNat
                  · have : x.toNat < z.toNat := by omega
                    simp [this]
                  · by_cases hzy : z.toNat < y.toNat
                    · simp [hyz, hzy] at hbc
                    · simp only [if_neg hyz, if_neg hzy] at hbc
                      have h1 : ¬ x.toNat < z.toNat := by omega
                      have h2 : ¬ z.toNat < x.toNat := by omega
                      simp only [if_neg h1, if_neg h2]
                      exact ih ys zs hab hbc

theorem mem_insertKey (k x : String) :
    ∀ l, x ∈ insertKey k l ↔ x = k ∨ x ∈ l := by
  intro l
  induction l with
  | nil => simp [insertKey]
  | cons y ys ih =>
      simp only [insertKey]
      by_cases h : strLt k.data y.data
      · simp [h, List.mem_cons]
      · simp [h, List.mem_cons, ih]
        tauto

theorem sorted_insertKey (k : String) :
    ∀ l, l.Pairwise keyLe → (insertKey k l).Pairwise keyLe := by
  intro l
  induction l with
  | nil => intro _; simp [insertKey, List.pairwise_singleton]
  | cons y ys ih =>
      intro hp
      rcases List.pairwise_cons.mp hp with ⟨hy, hys⟩
      simp only [insertKey]
      by_cases h : strLt k.data y.data
      · rw [if_pos h]
        refine List.pairwise_cons.mpr ⟨?_, hp⟩
        intro z hz
        rcases List.mem_cons.mp hz with hzy | hzys
        · subst hzy
          exact strLt_asymm _ _ h
        · have hyz : keyLe y z := hy z hzys
          unfold keyLe at hyz ⊢
          cases hzk : strLt z.data k.data with
          | false => rfl
          | true =>
              have : strLt z.data y.data = true := strLt_trans _ _ _ hzk h
              rw [hyz] at this
              exact Bool.noConfusion this
      · rw [if_neg h]
        refine List.pairwise_cons.mpr ⟨?_, ih hys⟩
        intro z hz
        rcases (mem_insertKey k z ys).mp hz with hzk | hzys
        · subst hzk
          unfold keyLe
          exact Bool.not_eq_true _ ▸ (by simpa using h)
        · exact hy z hzys

/-- The key sort really sorts: its output is pairwise ordered. -/
theorem sorted_sortKeys (ks : List String) : (sortKeys ks).Pairwise keyLe := by
  induction ks with
  | nil => simp [sortKeys]
  | cons k ks ih => exact sorted_insertKey k _ ih

/-! # Lemmas about materialization -/

/-- The paths of the children derived from an object value. -/
theorem deriveChildren_obj_paths (fields : List (String × JSON)) (p : List Step) :
    (deriveChildren (.obj fields) p).map TreeNode.path
      = (sortKeys (fields.map Prod.fst)).map (fun k => p ++ [Step.key k]) := by
  simp only [deriveChildren, List.map_map]
  refine List.map_congr_left fun k _ => ?_
  by_cases h : is_leaf ((fields.lookup k).getD .null)
  · simp [h]
  · simp [h]

/-- Re-materializing an already materialized node reproduces it. -/
theorem populateChildren_idem (data : JSON) (n n' : TreeNode)
    (h : populateChildren data n = .ok n') : populateChildren data n' = .ok n' := by
  obtain ⟨lb, pa, kd, ld, ae, ch⟩ := n
  cases hg : get_by_path data pa with
  | error e =>
      simp only [populateChildren, hg] at h
      exact Except.noConfusion h
  | ok value =>
      simp only [populateChildren, hg, Except.ok.injEq] at h
      subst h
      simp only [populateChildren, hg]

/-! # Claim theorems -/

/-- C1: the claim says every accepted-replacement write triggers the
refresh engine, so that editing a leaf holding `42` with `{"a":1}`
recomputes the node's kind to `object` and makes a child `a`
addressable.  The code violates this: evaluated on the document
`{"x": 42}` with the root materialized, the edit writes the parsed
object into the document (the address `["x","a"]` resolves to `1`
afterwards), but `_edit_leaf` returns without calling
`_refresh_tree_after_value_change` (unlike the Base64 path, line 427),
so the tree comes back bit-for-bit unchanged: the node at `["x"]`
still has kind `leaf` and no node at `["x","a"]` is addressable. -/
theorem C1_edit_write_skips_refresh :
    populateChildren c1Doc c1Root = .ok c1Tree ∧
    edit_leaf ⟨c1Doc, c1Tree⟩ [Step.key "x"] "\x7b\"a\":1\x7d" = .ok ⟨c1DocAfter, c1Tree⟩ ∧
    get_by_path c1DocAfter [Step.key "x", Step.key "a"] = .ok (.num 1) ∧
    (findNodeByPath c1Tree [Step.key "x"]).map TreeNode.kind = some Kind.leaf ∧
    findNodeByPath c1Tree [Step.key "x", Step.key "a"] = none :=
  ⟨rfl, rfl, rfl, rfl, rfl⟩

/-- C2: resolving a path that reaches an array value and then applies a
string step fails with the `TypeError` arm of the address-error
taxonomy, and an out-of-range integer step fails with the `IndexError`
arm; in both cases the `Except` result shows the walk stops with an
`AddrError` rather than anything else. -/
theorem C2_array_resolve_errors (d : JSON) (pre : List Step) (items : List JSON)
    (h : get_by_path d pre = .ok (.arr items)) :
    (∀ (k : String) (suf : List Step),
        get_by_path d (pre ++ Step.key k :: suf) = .error .typeError) ∧
    (∀ (i : Nat) (suf : List Step), items.length ≤ i →
        get_by_path d (pre ++ Step.idx i :: suf) = .error .indexError) := by
  constructor
  · intro k suf
    rw [get_by_path_append, h]
    simp [get_by_path, getStep]
  · intro i suf hi
    rw [get_by_path_append, h]
    simp [get_by_path, getStep, List.getElem?_eq_none hi]

/-- Witness for C2 at a concrete array. -/
theorem C2_witness :
    get_by_path (JSON.arr [JSON.num 7]) [Step.key "k"] = .error .typeError ∧
    get_by_path (JSON.arr [JSON.num 7]) [Step.idx 1] = .error .indexError := by
  have h := C2_array_resolve_errors (JSON.arr [JSON.num 7]) [] [JSON.num 7] rfl
  exact ⟨h.1 "k" [], h.2 1 [] (by decide)⟩

/-- C3 counterexample: the claim says the truncation marker appears iff
the input is longer than 8192 bytes, but on an input of length exactly
8192 the code compares the truncated length with the limit and emits
the marker anyway. -/
theorem C3_counterexample :
    ("… (truncated)" ∈ hexdumpLines (List.replicate 8192 0)) ∧
    ¬ (8192 < (List.replicate (8192 : Nat) (0 : Nat)).length) := by
  constructor
  · have hlen : ((List.replicate 8192 (0 : Nat)).take 8192).length = 8192 := by
      rw [List.length_take, List.length_replicate, Nat.min_self]
    simp only [hexdumpLines, hlen, if_pos]
    exact List.mem_append_right _ (List.mem_singleton.mpr rfl)
  · rw [List.length_replicate]
    omega

/-- C3 (amended): the dump is the newline join of the row list; the
rows are exactly one per 16-byte chunk of the input truncated to 8192
bytes, the `j`-th carrying the zero-padded offset prefix of `16*j`;
every chunk holds at most 16 bytes; non-printable bytes render as `.`;
and the explicit truncation marker appears iff the input is at least
(not strictly longer than) 8192 bytes. -/
theorem C3_hexdump_format (b : List Nat) :
    (hexdump b = String.intercalate "\n" (hexdumpLines b)) ∧
    (hexdumpLines b
      = (List.range (((b.take 8192).length + 15) / 16)).map
          (fun j => hexRowText (16 * j) (((b.take 8192).drop (16 * j)).take 16))
        ++ (if 8192 ≤ b.length then ["… (truncated)"] else [])) ∧
    (∀ j, (((b.take 8192).drop (16 * j)).take 16).length ≤ 16) ∧
    (∀ c, ¬ (32 ≤ c ∧ c < 127) → asciiDot c = '.') ∧
    (("… (truncated)" ∈ hexdumpLines b) ↔ 8192 ≤ b.length) := by
  refine ⟨rfl, ?_, ?_, ?_, ?_⟩
  · have hcond : ((b.take 8192).length = 8192) ↔ (8192 ≤ b.length) := by
      rw [List.length_take]
      omega
    simp only [hexdumpLines]
    rw [hexdumpLoop_eq]
    refine congrArg₂ (· ++ ·) ?_ ?_
    · exact List.map_congr_left fun j _ => by norm_num
    · simp only [hcond]
  · intro j
    simp [List.length_take]
  · intro c hc
    simp [asciiDot, hc]
  · constructor
    · intro hmem
      by_contra hb
      have hne : (b.take 8192).length ≠ 8192 := by
        simp [List.length_take]
        omega
      simp only [hexdumpLines, if_neg hne, List.append_nil] at hmem
      exact marker_not_mem_hexdumpLoop 0 _ hmem
    · intro hb
      have heq : (b.take 8192).length = 8192 := by
        simp [List.length_take]
        omega
      simp only [hexdumpLines, heq, if_pos]
      exact List.mem_append_right _ (List.mem_singleton.mpr rfl)

/-- Witness for (the hypothesis-bearing conjuncts of) C3. -/
theorem C3_witness :
    asciiDot 10 = '.' ∧
    (("… (truncated)" ∈ hexdumpLines [65]) ↔ 8192 ≤ ([65] : List Nat).length) :=
  ⟨(C3_hexdump_format [65]).2.2.2.1 10 (by decide), (C3_hexdump_format [65]).2.2.2.2⟩

/-- C4: for any address that resolves, writing the resolved value back
leaves the document unchanged — including the empty address, where the
write raises before mutating anything. -/
theorem C4_write_back_noop (d : JSON) (p : List Step) (v : JSON)
    (h : get_by_path d p = .ok v) : docAfterWrite d p v = d := by
  unfold docAfterWrite
  rcases set_by_path_roundtrip p d v h with hok | ⟨e, herr⟩
  · rw [hok]
  · rw [herr]

/-- Witness for C4, at a one-key object and at the empty address. -/
theorem C4_witness :
    get_by_path (JSON.obj [("a", JSON.num 1)]) [Step.key "a"] = .ok (JSON.num 1) ∧
    docAfterWrite (JSON.obj [("a", JSON.num 1)]) [Step.key "a"] (JSON.num 1)
      = JSON.obj [("a", JSON.num 1)] ∧
    docAfterWrite (JSON.obj [("a", JSON.num 1)]) [] (JSON.obj [("a", JSON.num 1)])
      = JSON.obj [("a", JSON.num 1)] :=
  ⟨rfl, C4_write_back_noop _ _ _ rfl, C4_write_back_noop _ [] _ rfl⟩

/-- C5: when the decoded bytes are UTF-8 text that (after stripping
leading whitespace) starts with `{` or `[`, a successful JSON parse
makes the proposed replacement the parsed structured value, and a
failed parse silently falls back to the plain decoded text; decoding
`eyJhIjoxfQ==` proposes the object `{a: 1}`, not the literal string. -/
theorem C5_decode_structural_promotion (src text : String) (raw : List Nat)
    (hb : b64decode src = .ok raw) (hu : utf8Decode raw = some text)
    (hs : (startsWithChar (lstrip text) '\x7b' || startsWithChar (lstrip text) '[') = true) :
    (∀ v, json_loads text = .ok v → proposedReplacement src = some v) ∧
    (∀ e, json_loads text = .error e → proposedReplacement src = some (.str text)) ∧
    proposedReplacement "eyJhIjoxfQ==" = some (.obj [("a", .num 1)]) := by
  refine ⟨?_, ?_, rfl⟩
  · intro v hv
    simp [proposedReplacement, on_mount_result, hb, hu, hs, hv]
  · intro e he
    simp [proposedReplacement, on_mount_result, hb, hu, hs, he]

/-- Witness for C5: the Base64-encoded JSON object is promoted; the
Base64-encoded text `{bad` starts with a brace but fails to parse and
falls back to the plain text. -/
theorem C5_witness :
    proposedReplacement "eyJhIjoxfQ==" = some (.obj [("a", .num 1)]) ∧
    proposedReplacement "e2JhZA==" = some (.str "\x7bbad") := by
  constructor
  · exact (C5_decode_structural_promotion "eyJhIjoxfQ==" "\x7b\"a\":1\x7d"
      [123, 34, 97, 34, 58, 49, 125] rfl rfl rfl).1 _ rfl
  · exact (C5_decode_structural_promotion "e2JhZA==" "\x7bbad"
      [123, 98, 97, 100] rfl rfl rfl).2.1 .err rfl

/-- C6: editing a string-typed leaf yields the edited text verbatim,
with no parse attempt (even for text that would parse as JSON); for a
non-string leaf the edited text is parsed, and on parse failure the
replacement is the raw edited text as a string. -/
theorem C6_edit_replacement_rules :
    (∀ (s edited : String), editReplacement (.str s) edited = .str edited) ∧
    (editReplacement (.str "x") "\x7b\"a\":1\x7d" = .str "\x7b\"a\":1\x7d" ∧
      json_loads "\x7b\"a\":1\x7d" = .ok (.obj [("a", .num 1)])) ∧
    (∀ (old : JSON) (edited : String) (v : JSON), old.isStr = false →
      json_loads edited = .ok v → editReplacement old edited = v) ∧
    (∀ (old : JSON) (edited : String) (e : ParseErr), old.isStr = false →
      json_loads edited = .error e → editReplacement old edited = .str edited) := by
  refine ⟨fun s edited => rfl, ⟨rfl, rfl⟩, ?_, ?_⟩
  · intro old edited v hns hv
    cases old <;> simp [JSON.isStr] at hns <;> simp [editReplacement, hv]
  · intro old edited e hns he
    cases old <;> simp [JSON.isStr] at hns <;> simp [editReplacement, he]

/-- Witness for C6. -/
theorem C6_witness :
    editReplacement (.str "x") "hello world" = .str "hello world" ∧
    editReplacement (.num 42) "hello world" = .str "hello world" ∧
    editReplacement (.num 42) "\x7b\"a\":1\x7d" = .obj [("a", .num 1)] :=
  ⟨C6_edit_replacement_rules.1 "x" "hello world",
   C6_edit_replacement_rules.2.2.2 (.num 42) "hello world" .err rfl rfl,
   C6_edit_replacement_rules.2.2.1 (.num 42) "\x7b\"a\":1\x7d" _ rfl rfl⟩

/-- C7: a write at the empty address fails with the `ValueError`
("Refusing to overwrite root object") arm of the address-error
taxonomy, and the document observed afterwards is unchanged. -/
theorem C7_root_write_rejected (d v : JSON) :
    set_by_path d [] v = .error .valueError ∧ docAfterWrite d [] v = d :=
  ⟨rfl, rfl⟩

/-- C8: a string leaf that contains any character outside the Base64
alphabet fails strict decoding with a decode error, no replacement is
proposed, and accepting the (absent) proposal leaves the document —
hence the leaf — unchanged. -/
theorem C8_invalid_base64 (src : String)
    (h : ∃ c ∈ src.data, isB64Char c = false ∧ c ≠ '=') :
    b64decode src = .error .nonBase64Digit ∧
    on_mount_result src = none ∧
    proposedReplacement src = none ∧
    (∀ (d : JSON) (p : List Step), get_by_path d p = .ok (.str src) →
      b64_accept d p = .ok d) := by
  obtain ⟨c, hmem, h1, h2⟩ := h
  have hdec := b64decode_bad_char src c hmem h1 h2
  refine ⟨hdec, ?_, ?_, ?_⟩
  · simp [on_mount_result, hdec]
  · simp [proposedReplacement, on_mount_result, hdec]
  · intro d p hp
    simp [b64_accept, hp, proposedReplacement, on_mount_result, hdec]

/-- Witness for C8 at the leaf value `"!!!"`. -/
theorem C8_witness :
    b64decode "!!!" = .error .nonBase64Digit ∧
    proposedReplacement "!!!" = none ∧
    b64_accept (JSON.obj [("k", JSON.str "!!!")]) [Step.key "k"]
      = .ok (JSON.obj [("k", JSON.str "!!!")]) := by
  have h := C8_invalid_base64 "!!!" ⟨'!', by decide, by decide, by decide⟩
  exact ⟨h.1, h.2.2.1, h.2.2.2 _ _ rfl⟩

/-- C9: re-materializing a node that was just materialized (with no
intervening document mutation) reproduces it exactly — same child
descriptors, in the same order — and for an object value the children
sit at `address + [key]` for the keys in sorted order. -/
theorem C9_materialize_idempotent (data : JSON) (n n' : TreeNode)
    (h : populateChildren data n = .ok n') :
    populateChildren data n' = .ok n' ∧
    (∀ fields, get_by_path data n.path = .ok (.obj fields) →
      n'.children.map TreeNode.path
          = (sortKeys (fields.map Prod.fst)).map (fun k => n.path ++ [Step.key k]) ∧
        (sortKeys (fields.map Prod.fst)).Pairwise keyLe) := by
  refine ⟨populateChildren_idem data n n' h, ?_⟩
  intro fields hf
  refine ⟨?_, sorted_sortKeys _⟩
  simp only [populateChildren, hf, Except.ok.injEq] at h
  subst h
  simp [deriveChildren_obj_paths]

/-- Witness for C9 on a two-key object with unsorted insertion order. -/
theorem C9_witness :
    populateChildren (JSON.obj [("b", JSON.num 2), ("a", JSON.num 1)])
        ⟨"JSON", [], Kind.dict, false, true, []⟩
      = .ok ⟨"JSON", [], Kind.dict, true, true,
          [⟨"a: (...)", [Step.key "a"], Kind.leaf, true, false, []⟩,
           ⟨"b: (...)", [Step.key "b"], Kind.leaf, true, false, []⟩]⟩ ∧
    populateChildren (JSON.obj [("b", JSON.num 2), ("a", JSON.num 1)])
        ⟨"JSON", [], Kind.dict, true, true,
          [⟨"a: (...)", [Step.key "a"], Kind.leaf, true, false, []⟩,
           ⟨"b: (...)", [Step.key "b"], Kind.leaf, true, false, []⟩]⟩
      = .ok ⟨"JSON", [], Kind.dict, true, true,
          [⟨"a: (...)", [Step.key "a"], Kind.leaf, true, false, []⟩,
           ⟨"b: (...)", [Step.key "b"], Kind.leaf, true, false, []⟩]⟩ :=
  ⟨rfl, (C9_materialize_idempotent
      (JSON.obj [("b", JSON.num 2), ("a", JSON.num 1)])
      ⟨"JSON", [], Kind.dict, false, true, []⟩
      ⟨"JSON", [], Kind.dict, true, true,
        [⟨"a: (...)", [Step.key "a"], Kind.leaf, true, false, []⟩,
         ⟨"b: (...)", [Step.key "b"], Kind.leaf, true, false, []⟩]⟩ rfl).1⟩

/-- C10 counterexample: the claim exempts only `q = p` and the
addresses extending `p`, but an ancestor of `p` (here the root, for a
write at `["a"]`) also resolves to a different value after the write,
since its subtree contains the written slot. -/
theorem C10_counterexample :
    set_by_path (JSON.obj [("a", JSON.num 0)]) [Step.key "a"] (JSON.num 1)
      = .ok (JSON.obj [("a", JSON.num 1)]) ∧
    (([] : List Step) ≠ [Step.key "a"]) ∧
    ¬ ([Step.key "a"] <+: ([] : List Step)) ∧
    get_by_path (JSON.obj [("a", JSON.num 1)]) ([] : List Step)
      ≠ get_by_path (JSON.obj [("a", JSON.num 0)]) ([] : List Step) := by
  refine ⟨rfl, by decide, by decide, ?_⟩
  intro heq
  simp [get_by_path] at heq

/-- C10 (amended): after a successful write at `p`, every address `q`
that neither extends `p` nor is a prefix of it (ancestors see the
change, since the written slot lies in their subtree) resolves to
exactly the same value as before the write. -/
theorem C10_write_frame (p : List Step) (d d' v : JSON) (q : List Step)
    (hw : set_by_path d p v = .ok d') (h1 : ¬ (p <+: q)) (h2 : ¬ (q <+: p)) :
    get_by_path d' q = get_by_path d q :=
  set_by_path_frame p d d' v q hw h1 h2

/-- Witness for C10 on sibling keys. -/
theorem C10_witness :
    set_by_path (JSON.obj [("a", JSON.num 0), ("b", JSON.num 5)]) [Step.key "a"] (JSON.num 1)
      = .ok (JSON.obj [("a", JSON.num 1), ("b", JSON.num 5)]) ∧
    get_by_path (JSON.obj [("a", JSON.num 1), ("b", JSON.num 5)]) [Step.key "b"]
      = get_by_path (JSON.obj [("a", JSON.num 0), ("b", JSON.num 5)]) [Step.key "b"] :=
  ⟨rfl, C10_write_frame [Step.key "a"] _ _ (JSON.num 1) [Step.key "b"] rfl
    (by decide) (by decide)⟩
